import Mathlib

/-!
# Control-plane ingestion and broadcast: a shallow embedding

This development embeds the ingestion coordinator (`internal/handlers/upload.go`),
the local blob store (`internal/storage/local.go`), the metadata schema operations
(`internal/redis/schema.go`, `internal/redis/client.go`), and the broadcast hub /
subscription stream handler (`internal/grpc/stream_manager.go` and
`internal/grpc/handlers.go`, reproduced in `GRPC_IMPLEMENTATION.md`) of the
control-plane repository, and proves or refutes the specification claims about them.

Conventions:
* byte strings are `List Nat`;
* the SHA-256 hex digest of the Go `crypto/sha256` library is an external,
  deterministic function, so the coordinator is parametrised by an arbitrary
  `hash : List Nat → String`;
* external stores (Redis, the local filesystem behind `LocalStorage`) are
  finite association lists together with explicit fault flags that model the
  error returns of the real stores at the points where the handler observes
  them; `LocalStorage.Delete` (`os.Remove`) is modelled as removing the entry,
  since both of the upload handler's delete call sites discard its error
  (`_ = h.storage.Delete(filePath)`), matching the spec's
  `Delete(path) -> ok` interface contract.
-/

namespace ControlPlane

/-- Lookup in an association list (first binding wins), the model of a
key-value store read. -/
def alookup {α β : Type} [DecidableEq α] : List (α × β) → α → Option β
  | [], _ => none
  | (k, v) :: rest, a => if k = a then some v else alookup rest a

/-- Insert-or-replace in an association list, the model of a key-value store
write (`HSET`/`SET`/blob `Save` all overwrite). -/
def aset {α β : Type} [DecidableEq α] : List (α × β) → α → β → List (α × β)
  | [], a, b => [(a, b)]
  | (k, v) :: rest, a, b => if k = a then (a, b) :: rest else (k, v) :: aset rest a b

/-- Remove a key from an association list, the model of `DEL` / blob `Delete`. -/
def aremove {α β : Type} [DecidableEq α] : List (α × β) → α → List (α × β)
  | [], _ => []
  | (k, v) :: rest, a => if k = a then aremove rest a else (k, v) :: aremove rest a

/-- `internal/models/models.go` `FileMetadata`: metadata for an uploaded file.
`uploadedAt` is the Unix timestamp taken at commit time; `size` is the
multipart header's size field. -/
structure FileMetadata where
  filename : String
  version : String
  checksum : String
  filePath : String
  uploadedAt : Int
  size : Int
deriving DecidableEq, Repr

/-- The metadata store's visible state, per the key schema of
`internal/redis/schema.go`: `file:{f}:{v}` hashes, `file:{f}:versions` sorted
sets (member with timestamp score), and `file:{f}:latest` strings. -/
structure MetaState where
  records : List ((String × String) × FileMetadata)
  versions : List (String × List (String × Int))
  latest : List (String × String)
deriving DecidableEq, Repr

/-- The empty metadata store. -/
def emptyMeta : MetaState := ⟨[], [], []⟩

/-- The per-name sorted-set entries (`file:{f}:versions`), member paired with
its timestamp score; an unset key reads as the empty set. -/
def zmembers (ms : MetaState) (filename : String) : List (String × Int) :=
  (alookup ms.versions filename).getD []

/-- Redis `ZADD`: insert the member with the given score, or update the score
of an existing member. -/
def zadd (zs : List (String × Int)) (member : String) (score : Int) : List (String × Int) :=
  aset zs member score

/-- `Client.StoreFileMetadata` (`internal/redis/schema.go:19`): a single
transaction writing the metadata hash, `ZADD`-ing the version into the
per-name sorted set with the upload timestamp as score, and setting the
per-name latest pointer to this version. -/
def storeFileMetadata (ms : MetaState) (m : FileMetadata) : MetaState :=
  { records := aset ms.records (m.filename, m.version) m
    versions := aset ms.versions m.filename (zadd (zmembers ms m.filename) m.version m.uploadedAt)
    latest := aset ms.latest m.filename m.version }

/-- Combined external state seen by the upload handler: the lock keys present
in Redis, the blob store contents (path to bytes), and the metadata store. -/
structure SystemState where
  locks : List String
  blobs : List (String × List Nat)
  meta : MetaState
deriving DecidableEq, Repr

/-- A system state with nothing stored. -/
def emptyState : SystemState := ⟨[], [], emptyMeta⟩

/-- Fault injection for the external stores during one upload request:
`lockErr` makes `AcquireLock` return an error (store unreachable); `saveErr`
makes `storage.Save` fail (`LocalStorage.Save`'s `os.MkdirAll`/`os.WriteFile`
errors); `readBack` overrides the result of the verification's `storage.Get`
(`some none` = `os.ReadFile` error, `some (some bs)` = the read returns `bs`,
`none` = the read returns what the store holds); `metaErr` makes the
metadata transaction `Exec` fail.  `storage.Delete` carries no fault flag:
the handler discards its error at both call sites. -/
structure Faults where
  lockErr : Bool
  saveErr : Bool
  readBack : Option (Option (List Nat))
  metaErr : Bool
deriving DecidableEq, Repr

/-- A request during which every external call behaves normally. -/
def noFaults : Faults := ⟨false, false, none, false⟩

/-- The upload lock key, `fmt.Sprintf("lock:upload:%s:%s", filename, version)`
from `acquireUploadLock` (`internal/handlers/upload.go:142`). -/
def lockKeyFor (filename version : String) : String :=
  "lock:upload:" ++ filename ++ ":" ++ version

/-- `LocalStorage.GetPath` (`internal/storage/local.go:27`): the
deterministic storage path `filepath.Join(ls.basePath, filename, version)`,
modelled as the plain `/`-join — identical to `filepath.Join` for clean path
components (names and versions without separators or dot segments), and
matching the expected paths of `internal/storage/local_test.go`.
`LocalStorage.Save` writes the bytes at this path (overwriting, modelled by
`aset`), `Get` reads the bytes at a path (`alookup`), and `Delete` removes
the entry at a path (`aremove`). -/
def getPath (base filename version : String) : String :=
  base ++ "/" ++ filename ++ "/" ++ version

/-- Redis `DEL` of the lock key, `Client.ReleaseLock`
(`internal/redis/client.go:58`). -/
def releaseLock (st : SystemState) (key : String) : SystemState :=
  { st with locks := st.locks.filter (fun k => k ≠ key) }

/-- HTTP-level outcome of one upload request: the success JSON with its
metadata, or `respondError`'s status code and base message. -/
inductive UploadResp where
  | ok (meta : FileMetadata)
  | err (status : Nat) (message : String)
deriving DecidableEq, Repr

/-- The result of the verification read (`storage.Get(filePath)` inside
`verifyFile`): what the blob store holds at the path, unless the fault model
overrides it with a read error or corrupted bytes. -/
def readBackOf (f : Faults) (blobs : List (String × List Nat)) (path : String) :
    Option (List Nat) :=
  match f.readBack with
  | none => alookup blobs path
  | some r => r

/-- `verifyFile` (`internal/handlers/upload.go:188`): given the result of the
read-back `storage.Get` call, the original payload and the checksum computed
over it, return `some errorMessage` on verification failure and `none` on
success.  The checks, in source order: the read-back failed; the byte length
differs; the hash of the read-back bytes differs from the expected checksum. -/
def verifyFile (hash : List Nat → String) (readback : Option (List Nat))
    (originalData : List Nat) (expectedChecksum : String) : Option String :=
  match readback with
  | none => some "file not readable"
  | some verifiedData =>
    if verifiedData.length ≠ originalData.length then some "size mismatch"
    else if hash verifiedData ≠ expectedChecksum then some "checksum mismatch"
    else none

/-- Everything observable from one `HandleUpload` request: the store state
after the handler returned, the HTTP response, and the trace of update events
handed to the propagation transport (`BroadcastClient.BroadcastUpdate` calls
made by the handler; the source handler makes none). -/
structure UploadOutcome where
  state : SystemState
  resp : UploadResp
  propagated : List FileMetadata
deriving DecidableEq, Repr

/-- `UploadHandler.HandleUpload` (`internal/handlers/upload.go:38`), after the
multipart form has produced `filename`, `version`, the payload bytes and the
header size, with `now` the commit-time Unix timestamp.  Steps, in source
order: reject empty filename/version (400); acquire the upload lock via
`SETNX` (error → 500 "Failed to acquire lock", already present → 409), with
the deferred `ReleaseLock` running on every later exit; `processFileUpload`
(checksum and `storage.Save` joined; save failure → 500 "Failed to process
file"); `verifyFile` (failure → delete the blob, 500 "File verification
failed"); `storeMetadata` (transaction failure → delete the blob, 500 "Failed
to store metadata"); otherwise respond 200 with the metadata.  The handler
never invokes the broadcast client, so `propagated` is empty on every path. -/
def handleUpload (hash : List Nat → String) (f : Faults) (base : String)
    (st : SystemState) (filename version : String) (fileData : List Nat)
    (headerSize now : Int) : UploadOutcome :=
  if filename = "" ∨ version = "" then
    ⟨st, .err 400 "filename and version are required", []⟩
  else
    let lockKey := lockKeyFor filename version
    if f.lockErr then ⟨st, .err 500 "Failed to acquire lock", []⟩
    else if st.locks.contains lockKey then
      ⟨st, .err 409 "Upload already in progress for this file and version", []⟩
    else
      let st1 : SystemState := { st with locks := lockKey :: st.locks }
      if f.saveErr then
        ⟨releaseLock st1 lockKey, .err 500 "Failed to process file", []⟩
      else
        let checksum := hash fileData
        let filePath := getPath base filename version
        let st2 : SystemState := { st1 with blobs := aset st1.blobs filePath fileData }
        let readback : Option (List Nat) := readBackOf f st2.blobs filePath
        match verifyFile hash readback fileData checksum with
        | some _ =>
          let st3 : SystemState := { st2 with blobs := aremove st2.blobs filePath }
          ⟨releaseLock st3 lockKey, .err 500 "File verification failed", []⟩
        | none =>
          let metadata : FileMetadata :=
            ⟨filename, version, checksum, filePath, now, headerSize⟩
          if f.metaErr then
            let st3 : SystemState := { st2 with blobs := aremove st2.blobs filePath }
            ⟨releaseLock st3 lockKey, .err 500 "Failed to store metadata", []⟩
          else
            let st3 : SystemState := { st2 with meta := storeFileMetadata st2.meta metadata }
            ⟨releaseLock st3 lockKey, .ok metadata, []⟩

/-- `gen.WorkerUpdate` (`proto/gen`): the immutable update event broadcast to
subscribers. -/
structure WorkerUpdate where
  workerName : String
  version : String
  checksum : String
  workerCode : List Nat
  size : Int
  filePath : String
  timestamp : Int
deriving DecidableEq, Repr

/-- `StreamManager` (`internal/grpc/stream_manager.go`): consumer ID to its
buffered outbound queue of pending updates. -/
structure StreamManager where
  streams : List (String × List WorkerUpdate)
deriving DecidableEq, Repr

/-- A stream manager with no registered consumers. -/
def emptySM : StreamManager := ⟨[]⟩

/-- The fixed buffer of the per-consumer update channel,
`make(chan *gen.WorkerUpdate, 100)` in `StreamManager.Register`. -/
def queueBuffer : Nat := 100

/-- `StreamManager.Register`: create a fresh empty buffered queue under the
consumer ID, replacing any prior registration. -/
def register (sm : StreamManager) (consumerID : String) : StreamManager :=
  ⟨aset sm.streams consumerID []⟩

/-- `StreamManager.Unregister`: close and remove the consumer's queue;
unknown IDs are a no-op. -/
def unregister (sm : StreamManager) (consumerID : String) : StreamManager :=
  ⟨aremove sm.streams consumerID⟩

/-- The per-consumer loop body of `StreamManager.Broadcast`: a non-blocking
channel send enqueues when the buffer has room, otherwise leaves the queue
unchanged and records the consumer ID among the dropped. -/
def broadcastAux (u : WorkerUpdate) :
    List (String × List WorkerUpdate) → List (String × List WorkerUpdate) × List String
  | [] => ([], [])
  | (id, q) :: rest =>
    let r := broadcastAux u rest
    if q.length < queueBuffer then ((id, q ++ [u]) :: r.1, r.2)
    else ((id, q) :: r.1, id :: r.2)

/-- `StreamManager.Broadcast` (`internal/grpc/stream_manager.go:281` as listed
in `GRPC_IMPLEMENTATION.md`): returns the updated registry together with the
error result — `none` models a `nil` error (empty registry, or every send
succeeded); `some ids` models the non-nil aggregate error
`"failed to send to %d consumers: ..."` listing the consumers whose full
queues made their update be dropped. -/
def broadcast (sm : StreamManager) (u : WorkerUpdate) :
    StreamManager × Option (List String) :=
  if sm.streams.isEmpty then (sm, none)
  else
    let r := broadcastAux u sm.streams
    (⟨r.1⟩, if r.2.isEmpty then none else some r.2)

/-- The `/internal/broadcast` HTTP endpoint (`SetupHTTPBroadcastEndpoint`,
`internal/grpc/server.go`): a non-nil `Broadcast` error is answered with
HTTP 500 "Failed to broadcast", a nil error with HTTP 200. -/
def httpBroadcastStatus (sm : StreamManager) (u : WorkerUpdate) : Nat × StreamManager :=
  match broadcast sm u with
  | (sm', some _) => (500, sm')
  | (sm', none) => (200, sm')

/-- The drain loop of `ControlPlaneService.SubscribeWorkerUpdates`
(`internal/grpc/handlers.go`, `GRPC_IMPLEMENTATION.md:187`): for each update
arriving on the queue, skip it when the subscriber's requested worker-name
list is non-empty and does not contain the update's worker name; otherwise
send it on the stream, aborting the loop when a send fails.  Returns the
updates actually delivered and whether the loop ended cleanly (channel
closed) rather than on a send error. -/
def drainUpdates (sendOk : WorkerUpdate → Bool) (workerNames : List String) :
    List WorkerUpdate → List WorkerUpdate × Bool
  | [] => ([], true)
  | u :: rest =>
    if workerNames.length > 0 ∧ ¬ workerNames.contains u.workerName then
      drainUpdates sendOk workerNames rest
    else if sendOk u then
      let r := drainUpdates sendOk workerNames rest
      (u :: r.1, r.2)
    else ([], false)

/-- The spec's allow-list filter: with an empty list every event passes, with
a non-empty list exactly the events whose artifact name is a member pass. -/
def passesFilter (workerNames : List String) (name : String) : Bool :=
  workerNames.isEmpty || workerNames.contains name

/-- The running maximum of `ZREVRANGE key 0 0`: among sorted-set entries the
one with the greatest score, ties broken towards the lexicographically
greatest member (Redis sorted-set order, reversed). -/
def zmaxAux (best : String × Int) : List (String × Int) → String × Int
  | [] => best
  | p :: rest =>
    zmaxAux (if best.2 < p.2 ∨ (best.2 = p.2 ∧ best.1 < p.1) then p else best) rest

/-- Redis `ZREVRANGE key 0 0` on the model sorted set: the member ranked
first in descending order, if any. -/
def zrevTop : List (String × Int) → Option String
  | [] => none
  | p :: rest => some (zmaxAux p rest).1

/-- `Client.GetLatestVersion` (`internal/redis/schema.go:87`): `GET` the
per-name latest pointer; on a non-`Nil` store error (`getErr`) fail with
"failed to get latest version"; on `redis.Nil` (key absent) fall back to
`ZREVRANGE versions 0 0`, failing with "no versions found" when that read
errors (`zErr`) or the set is empty. -/
def getLatestVersion (ms : MetaState) (getErr zErr : Bool) (filename : String) :
    Except String String :=
  if getErr then .error "failed to get latest version"
  else
    match alookup ms.latest filename with
    | some v => .ok v
    | none =>
      if zErr then .error ("no versions found for file: " ++ filename)
      else
        match zrevTop (zmembers ms filename) with
        | some v => .ok v
        | none => .error ("no versions found for file: " ++ filename)

/-- The invariant of the per-name version data (spec §3, Version Index):
whenever the latest pointer of a name is set, it names a member of that
name's version index. -/
def metaInv (ms : MetaState) : Prop :=
  ∀ n v, alookup ms.latest n = some v → v ∈ (zmembers ms n).map Prod.fst

/-- A sequence of metadata-commit attempts: each entry is a transaction that
either succeeds (`true`, applying `storeFileMetadata` atomically) or fails
(`false`, leaving the store untouched — the transaction is all-or-nothing). -/
def commitSeq (ms : MetaState) : List (Bool × FileMetadata) → MetaState
  | [] => ms
  | (ok, m) :: rest => commitSeq (if ok then storeFileMetadata ms m else ms) rest

/-- A concrete stand-in for the external hash function, used to evaluate the
claims' theorems on concrete inputs. -/
def hashLen : List Nat → String := fun l => toString l.length

/-- A concrete update event, used to evaluate broadcast behaviour. -/
def evA : WorkerUpdate := ⟨"w1", "1.0.0", "c", [1], 1, "p", 0⟩

/-- The stream registry after registering consumer `"c1"` and broadcasting
`queueBuffer` events to it: its queue is full. -/
def smFull : StreamManager :=
  (List.range queueBuffer).foldl (fun s _ => (broadcast s evA).1) (register emptySM "c1")

/-- A concrete metadata store whose latest pointer for `"a"` is present and
whose version index for `"a"` is non-empty. -/
def msW10 : MetaState := ⟨[], [("a", [("1", 5)])], [("a", "1")]⟩

/-! ## Helper lemmas about the store primitives -/

theorem alookup_aset_self {α β : Type} [DecidableEq α] (l : List (α × β)) (a : α) (b : β) :
    alookup (aset l a b) a = some b := by
  induction l with
  | nil => simp [aset, alookup]
  | cons p rest ih =>
    obtain ⟨k, v⟩ := p
    by_cases hk : k = a
    · simp [aset, hk, alookup]
    · simp [aset, hk, alookup, ih]

theorem alookup_aset_ne {α β : Type} [DecidableEq α] (l : List (α × β)) (a a' : α) (b : β)
    (h : a' ≠ a) : alookup (aset l a b) a' = alookup l a' := by
  induction l with
  | nil => simp [aset, alookup, Ne.symm h]
  | cons p rest ih =>
    obtain ⟨k, v⟩ := p
    by_cases hk : k = a
    · subst hk
      simp [aset, alookup, Ne.symm h]
    · simp [aset, hk, alookup, ih]

theorem alookup_aremove_self {α β : Type} [DecidableEq α] (l : List (α × β)) (a : α) :
    alookup (aremove l a) a = none := by
  induction l with
  | nil => simp [aremove, alookup]
  | cons p rest ih =>
    obtain ⟨k, v⟩ := p
    by_cases hk : k = a
    · simp [aremove, hk, ih]
    · simp [aremove, hk, alookup, ih]

theorem mem_fst_aset {α β : Type} [DecidableEq α] (l : List (α × β)) (a k : α) (b : β)
    (h : k ∈ l.map Prod.fst) : k ∈ (aset l a b).map Prod.fst := by
  induction l with
  | nil => simp at h
  | cons p rest ih =>
    obtain ⟨k', v'⟩ := p
    by_cases hk : k' = a
    · subst hk
      simp only [List.map_cons, List.mem_cons] at h
      rcases h with h | h
      · simp [aset, h]
      · simp [aset, h]
    · simp only [List.map_cons, List.mem_cons] at h
      rcases h with h | h
      · simp [aset, hk, h]
      · simp only [aset, hk, if_false, List.map_cons, List.mem_cons]
        exact Or.inr (ih h)

theorem self_mem_fst_aset {α β : Type} [DecidableEq α] (l : List (α × β)) (a : α) (b : β) :
    a ∈ (aset l a b).map Prod.fst := by
  induction l with
  | nil => simp [aset]
  | cons p rest ih =>
    obtain ⟨k, v⟩ := p
    by_cases hk : k = a
    · simp [aset, hk]
    · simp only [aset, hk, if_false, List.map_cons, List.mem_cons]
      exact Or.inr ih

/-! ## Path characterizations of `handleUpload` -/

theorem handleUpload_invalid (hash : List Nat → String) (f : Faults) (base : String)
    (st : SystemState) (filename version : String) (fileData : List Nat)
    (headerSize now : Int) (h1 : filename = "" ∨ version = "") :
    handleUpload hash f base st filename version fileData headerSize now =
      ⟨st, .err 400 "filename and version are required", []⟩ := by
  simp [handleUpload, h1]

theorem handleUpload_lockErr (hash : List Nat → String) (f : Faults) (base : String)
    (st : SystemState) (filename version : String) (fileData : List Nat)
    (headerSize now : Int) (h1 : ¬(filename = "" ∨ version = ""))
    (h2 : f.lockErr = true) :
    handleUpload hash f base st filename version fileData headerSize now =
      ⟨st, .err 500 "Failed to acquire lock", []⟩ := by
  simp [handleUpload, h1, h2]

theorem handleUpload_conflict (hash : List Nat → String) (f : Faults) (base : String)
    (st : SystemState) (filename version : String) (fileData : List Nat)
    (headerSize now : Int) (h1 : ¬(filename = "" ∨ version = ""))
    (h2 : f.lockErr = false)
    (h3 : st.locks.contains (lockKeyFor filename version) = true) :
    handleUpload hash f base st filename version fileData headerSize now =
      ⟨st, .err 409 "Upload already in progress for this file and version", []⟩ := by
  have h3' : lockKeyFor filename version ∈ st.locks := by simpa using h3
  simp [handleUpload, h1, h2, h3']

theorem handleUpload_saveErr (hash : List Nat → String) (f : Faults) (base : String)
    (st : SystemState) (filename version : String) (fileData : List Nat)
    (headerSize now : Int) (h1 : ¬(filename = "" ∨ version = ""))
    (h2 : f.lockErr = false)
    (h3 : st.locks.contains (lockKeyFor filename version) = false)
    (h4 : f.saveErr = true) :
    handleUpload hash f base st filename version fileData headerSize now =
      ⟨⟨(lockKeyFor filename version :: st.locks).filter
          (fun k => k ≠ lockKeyFor filename version), st.blobs, st.meta⟩,
        .err 500 "Failed to process file", []⟩ := by
  have h3' : lockKeyFor filename version ∉ st.locks := by simpa using h3
  simp [handleUpload, releaseLock, h1, h2, h3', h4]

theorem handleUpload_verifyFail (hash : List Nat → String) (f : Faults) (base : String)
    (st : SystemState) (filename version : String) (fileData : List Nat)
    (headerSize now : Int) (msg : String) (h1 : ¬(filename = "" ∨ version = ""))
    (h2 : f.lockErr = false)
    (h3 : st.locks.contains (lockKeyFor filename version) = false)
    (h4 : f.saveErr = false)
    (h5 : verifyFile hash
        (readBackOf f (aset st.blobs (getPath base filename version) fileData)
          (getPath base filename version)) fileData (hash fileData) = some msg) :
    handleUpload hash f base st filename version fileData headerSize now =
      ⟨⟨(lockKeyFor filename version :: st.locks).filter
          (fun k => k ≠ lockKeyFor filename version),
        aremove (aset st.blobs (getPath base filename version) fileData)
          (getPath base filename version), st.meta⟩,
        .err 500 "File verification failed", []⟩ := by
  have h3' : lockKeyFor filename version ∉ st.locks := by simpa using h3
  simp [handleUpload, releaseLock, h1, h2, h3', h4, h5]

theorem handleUpload_metaErr (hash : List Nat → String) (f : Faults) (base : String)
    (st : SystemState) (filename version : String) (fileData : List Nat)
    (headerSize now : Int) (h1 : ¬(filename = "" ∨ version = ""))
    (h2 : f.lockErr = false)
    (h3 : st.locks.contains (lockKeyFor filename version) = false)
    (h4 : f.saveErr = false)
    (h5 : verifyFile hash
        (readBackOf f (aset st.blobs (getPath base filename version) fileData)
          (getPath base filename version)) fileData (hash fileData) = none)
    (h6 : f.metaErr = true) :
    handleUpload hash f base st filename version fileData headerSize now =
      ⟨⟨(lockKeyFor filename version :: st.locks).filter
          (fun k => k ≠ lockKeyFor filename version),
        aremove (aset st.blobs (getPath base filename version) fileData)
          (getPath base filename version), st.meta⟩,
        .err 500 "Failed to store metadata", []⟩ := by
  have h3' : lockKeyFor filename version ∉ st.locks := by simpa using h3
  simp [handleUpload, releaseLock, h1, h2, h3', h4, h5, h6]

theorem handleUpload_success (hash : List Nat → String) (f : Faults) (base : String)
    (st : SystemState) (filename version : String) (fileData : List Nat)
    (headerSize now : Int) (h1 : ¬(filename = "" ∨ version = ""))
    (h2 : f.lockErr = false)
    (h3 : st.locks.contains (lockKeyFor filename version) = false)
    (h4 : f.saveErr = false)
    (h5 : verifyFile hash
        (readBackOf f (aset st.blobs (getPath base filename version) fileData)
          (getPath base filename version)) fileData (hash fileData) = none)
    (h6 : f.metaErr = false) :
    handleUpload hash f base st filename version fileData headerSize now =
      ⟨⟨(lockKeyFor filename version :: st.locks).filter
          (fun k => k ≠ lockKeyFor filename version),
        aset st.blobs (getPath base filename version) fileData,
        storeFileMetadata st.meta
          ⟨filename, version, hash fileData, getPath base filename version, now, headerSize⟩⟩,
        .ok ⟨filename, version, hash fileData, getPath base filename version, now, headerSize⟩,
        []⟩ := by
  have h3' : lockKeyFor filename version ∉ st.locks := by simpa using h3
  simp [handleUpload, releaseLock, h1, h2, h3', h4, h5, h6]

/-! ## Claim C1 -/

/-- C1: for every upload request that returns success, the checksum field of
the returned metadata equals the (hex SHA-256) hash of the uploaded payload
bytes, and the bytes then stored at the blob path for (name, version) hash to
that same checksum.  The coordinator is parametrised by the hash function, so
this holds in particular for hex-encoded SHA-256. -/
theorem c1_checksum_matches_stored (hash : List Nat → String) (f : Faults) (base : String)
    (st : SystemState) (filename version : String) (fileData : List Nat)
    (headerSize now : Int) (meta : FileMetadata)
    (h : (handleUpload hash f base st filename version fileData headerSize now).resp =
      .ok meta) :
    meta.checksum = hash fileData ∧
    ∃ bs, alookup (handleUpload hash f base st filename version fileData headerSize
        now).state.blobs (getPath base filename version) = some bs ∧
      hash bs = meta.checksum := by
  by_cases h1 : filename = "" ∨ version = ""
  · rw [handleUpload_invalid hash f base st filename version fileData headerSize now h1] at h
    exact absurd h (by simp)
  · by_cases h2 : f.lockErr = true
    · rw [handleUpload_lockErr hash f base st filename version fileData headerSize now h1 h2]
        at h
      exact absurd h (by simp)
    · rw [Bool.not_eq_true] at h2
      by_cases h3 : st.locks.contains (lockKeyFor filename version) = true
      · rw [handleUpload_conflict hash f base st filename version fileData headerSize now
          h1 h2 h3] at h
        exact absurd h (by simp)
      · rw [Bool.not_eq_true] at h3
        by_cases h4 : f.saveErr = true
        · rw [handleUpload_saveErr hash f base st filename version fileData headerSize now
            h1 h2 h3 h4] at h
          exact absurd h (by simp)
        · rw [Bool.not_eq_true] at h4
          cases h5 : verifyFile hash
              (readBackOf f (aset st.blobs (getPath base filename version) fileData)
                (getPath base filename version)) fileData (hash fileData) with
          | some msg =>
            rw [handleUpload_verifyFail hash f base st filename version fileData headerSize
              now msg h1 h2 h3 h4 h5] at h
            exact absurd h (by simp)
          | none =>
            by_cases h6 : f.metaErr = true
            · rw [handleUpload_metaErr hash f base st filename version fileData headerSize
                now h1 h2 h3 h4 h5 h6] at h
              exact absurd h (by simp)
            · rw [Bool.not_eq_true] at h6
              have heq := handleUpload_success hash f base st filename version fileData
                headerSize now h1 h2 h3 h4 h5 h6
              rw [heq] at h ⊢
              simp only [UploadResp.ok.injEq] at h
              subst h
              refine ⟨rfl, fileData, ?_, rfl⟩
              exact alookup_aset_self st.blobs (getPath base filename version) fileData

/-- Witness for C1 at a concrete successful upload. -/
theorem c1_checksum_matches_stored_witness :
    (handleUpload hashLen noFaults "files" emptyState "w1" "1.0.0" [104, 101] 2 7).resp =
      .ok ⟨"w1", "1.0.0", "2", "files/w1/1.0.0", 7, 2⟩ ∧
    (("2" : String) = hashLen [104, 101] ∧
      ∃ bs, alookup (handleUpload hashLen noFaults "files" emptyState "w1" "1.0.0"
          [104, 101] 2 7).state.blobs (getPath "files" "w1" "1.0.0") = some bs ∧
        hashLen bs = "2") :=
  ⟨by decide,
   c1_checksum_matches_stored hashLen noFaults "files" emptyState "w1" "1.0.0" [104, 101] 2 7
     ⟨"w1", "1.0.0", "2", "files/w1/1.0.0", 7, 2⟩ (by decide)⟩

/-! ## Claim C2 -/

/-- C2: the upload handler completes a fully successful ingestion — metadata
committed and a 200 success response returned — yet hands no update event to
the propagation transport: its trace of `BroadcastUpdate` calls is empty,
contrary to the spec's propagation step (and to `GRPC_IMPLEMENTATION.md`,
which documents that the upload handler calls broadcast after a successful
upload). -/
theorem c2_success_without_propagation :
    (handleUpload hashLen noFaults "files" emptyState "w1" "1.0.0" [104, 101] 2 7).resp =
      .ok ⟨"w1", "1.0.0", "2", "files/w1/1.0.0", 7, 2⟩ ∧
    (handleUpload hashLen noFaults "files" emptyState "w1" "1.0.0"
      [104, 101] 2 7).propagated = [] := by decide

/-! ## Claim C4 -/

/-- C4: whenever the handler answers with the metadata-commit failure
response, the blob it wrote for (name, version) has been deleted again — the
blob store holds nothing at that path — and the metadata store is exactly as
it was before the request, so no partially-visible state remains. -/
theorem c4_rollback_on_commit_failure (hash : List Nat → String) (f : Faults) (base : String)
    (st : SystemState) (filename version : String) (fileData : List Nat)
    (headerSize now : Int)
    (h : (handleUpload hash f base st filename version fileData headerSize now).resp =
      .err 500 "Failed to store metadata") :
    alookup (handleUpload hash f base st filename version fileData headerSize
        now).state.blobs (getPath base filename version) = none ∧
    (handleUpload hash f base st filename version fileData headerSize now).state.meta =
      st.meta := by
  by_cases h1 : filename = "" ∨ version = ""
  · rw [handleUpload_invalid hash f base st filename version fileData headerSize now h1] at h
    simp at h
  · by_cases h2 : f.lockErr = true
    · rw [handleUpload_lockErr hash f base st filename version fileData headerSize now h1 h2]
        at h
      simp at h
    · rw [Bool.not_eq_true] at h2
      by_cases h3 : st.locks.contains (lockKeyFor filename version) = true
      · rw [handleUpload_conflict hash f base st filename version fileData headerSize now
          h1 h2 h3] at h
        simp at h
      · rw [Bool.not_eq_true] at h3
        by_cases h4 : f.saveErr = true
        · rw [handleUpload_saveErr hash f base st filename version fileData headerSize now
            h1 h2 h3 h4] at h
          simp at h
        · rw [Bool.not_eq_true] at h4
          cases h5 : verifyFile hash
              (readBackOf f (aset st.blobs (getPath base filename version) fileData)
                (getPath base filename version)) fileData (hash fileData) with
          | some msg =>
            rw [handleUpload_verifyFail hash f base st filename version fileData headerSize
              now msg h1 h2 h3 h4 h5] at h
            simp at h
          | none =>
            by_cases h6 : f.metaErr = true
            · rw [handleUpload_metaErr hash f base st filename version fileData headerSize
                now h1 h2 h3 h4 h5 h6]
              exact ⟨alookup_aremove_self _ _, rfl⟩
            · rw [Bool.not_eq_true] at h6
              rw [handleUpload_success hash f base st filename version fileData headerSize
                now h1 h2 h3 h4 h5 h6] at h
              simp at h

/-- Witness for C4: a concrete upload whose metadata transaction fails. -/
theorem c4_rollback_on_commit_failure_witness :
    (handleUpload hashLen ⟨false, false, none, true⟩ "files" emptyState "w1" "1.0.0"
      [104, 101] 2 7).resp = .err 500 "Failed to store metadata" ∧
    (alookup (handleUpload hashLen ⟨false, false, none, true⟩ "files" emptyState "w1" "1.0.0"
        [104, 101] 2 7).state.blobs (getPath "files" "w1" "1.0.0") = none ∧
      (handleUpload hashLen ⟨false, false, none, true⟩ "files" emptyState "w1" "1.0.0"
        [104, 101] 2 7).state.meta = emptyState.meta) :=
  ⟨by decide,
   c4_rollback_on_commit_failure hashLen ⟨false, false, none, true⟩ "files" emptyState
     "w1" "1.0.0" [104, 101] 2 7 (by decide)⟩

/-! ## Claim C6 -/

/-- C6: with valid inputs, an already-present upload lock key makes the
handler answer 409 Conflict with the store state untouched (no blob, no
metadata written), an error from lock acquisition itself makes it answer the
distinct status 500 ("Failed to acquire lock", the handler's realization of
`Unavailable`), and the two responses differ. -/
theorem c6_conflict_distinct_from_unavailable (hash : List Nat → String) (f : Faults)
    (base : String) (st : SystemState) (filename version : String) (fileData : List Nat)
    (headerSize now : Int) (h1 : ¬(filename = "" ∨ version = "")) :
    (f.lockErr = true →
      handleUpload hash f base st filename version fileData headerSize now =
        ⟨st, .err 500 "Failed to acquire lock", []⟩) ∧
    (f.lockErr = false → st.locks.contains (lockKeyFor filename version) = true →
      handleUpload hash f base st filename version fileData headerSize now =
        ⟨st, .err 409 "Upload already in progress for this file and version", []⟩) ∧
    (UploadResp.err 409 "Upload already in progress for this file and version" ≠
      UploadResp.err 500 "Failed to acquire lock") := by
  refine ⟨?_, ?_, by decide⟩
  · intro h2
    exact handleUpload_lockErr hash f base st filename version fileData headerSize now h1 h2
  · intro h2 h3
    exact handleUpload_conflict hash f base st filename version fileData headerSize now
      h1 h2 h3

/-- Witness for C6: a concrete conflicting upload and a concrete lock-store
error. -/
theorem c6_conflict_distinct_from_unavailable_witness :
    handleUpload hashLen noFaults "files"
        ⟨[lockKeyFor "w1" "1.0.0"], [], emptyMeta⟩ "w1" "1.0.0" [104, 101] 2 7 =
      ⟨⟨[lockKeyFor "w1" "1.0.0"], [], emptyMeta⟩,
        .err 409 "Upload already in progress for this file and version", []⟩ ∧
    handleUpload hashLen ⟨true, false, none, false⟩ "files" emptyState "w1" "1.0.0"
        [104, 101] 2 7 = ⟨emptyState, .err 500 "Failed to acquire lock", []⟩ :=
  ⟨(c6_conflict_distinct_from_unavailable hashLen noFaults "files"
      ⟨[lockKeyFor "w1" "1.0.0"], [], emptyMeta⟩ "w1" "1.0.0" [104, 101] 2 7
      (by decide)).2.1 rfl (by decide),
   (c6_conflict_distinct_from_unavailable hashLen ⟨true, false, none, false⟩ "files"
      emptyState "w1" "1.0.0" [104, 101] 2 7 (by decide)).1 rfl⟩

/-! ## Claim C7 -/

/-- C7: on every execution path of a request that successfully acquires the
upload lock — success, processing failure, verification failure, and
metadata-commit failure — the lock key is no longer held when the handler
returns. -/
theorem c7_lock_released_on_every_path (hash : List Nat → String) (f : Faults)
    (base : String) (st : SystemState) (filename version : String) (fileData : List Nat)
    (headerSize now : Int) (h1 : ¬(filename = "" ∨ version = ""))
    (h2 : f.lockErr = false)
    (h3 : st.locks.contains (lockKeyFor filename version) = false) :
    lockKeyFor filename version ∉
      (handleUpload hash f base st filename version fileData headerSize now).state.locks := by
  by_cases h4 : f.saveErr = true
  · rw [handleUpload_saveErr hash f base st filename version fileData headerSize now
      h1 h2 h3 h4]
    simp [List.mem_filter]
  · rw [Bool.not_eq_true] at h4
    cases h5 : verifyFile hash
        (readBackOf f (aset st.blobs (getPath base filename version) fileData)
          (getPath base filename version)) fileData (hash fileData) with
    | some msg =>
      rw [handleUpload_verifyFail hash f base st filename version fileData headerSize now
        msg h1 h2 h3 h4 h5]
      simp [List.mem_filter]
    | none =>
      by_cases h6 : f.metaErr = true
      · rw [handleUpload_metaErr hash f base st filename version fileData headerSize now
          h1 h2 h3 h4 h5 h6]
        simp [List.mem_filter]
      · rw [Bool.not_eq_true] at h6
        rw [handleUpload_success hash f base st filename version fileData headerSize now
          h1 h2 h3 h4 h5 h6]
        simp [List.mem_filter]

/-- Witness for C7 at a concrete acquiring run (a metadata-commit failure
path). -/
theorem c7_lock_released_on_every_path_witness :
    lockKeyFor "w1" "1.0.0" ∉
      (handleUpload hashLen ⟨false, false, none, true⟩ "files" emptyState "w1" "1.0.0"
        [104, 101] 2 7).state.locks :=
  c7_lock_released_on_every_path hashLen ⟨false, false, none, true⟩ "files" emptyState
    "w1" "1.0.0" [104, 101] 2 7 (by decide) rfl (by decide)

/-! ## Claim C5 -/

/-- C5: verification fails exactly when the read-back of the just-written
blob fails, or the read-back length differs from the payload's, or the hash
of the read-back bytes differs from the hash computed over the payload
(which is the expected checksum the handler passes in); and whenever the
handler answers with the verification-failure response, the written blob has
been deleted: the blob store holds nothing at the path for (name, version). -/
theorem c5_verification_failure_iff_and_cleanup :
    (∀ (hash : List Nat → String) (readback : Option (List Nat)) (orig : List Nat),
      verifyFile hash readback orig (hash orig) ≠ none ↔
        (readback = none ∨ ∃ bs, readback = some bs ∧
          (bs.length ≠ orig.length ∨ hash bs ≠ hash orig))) ∧
    (∀ (hash : List Nat → String) (f : Faults) (base : String) (st : SystemState)
      (filename version : String) (fileData : List Nat) (headerSize now : Int),
      (handleUpload hash f base st filename version fileData headerSize now).resp =
        .err 500 "File verification failed" →
      alookup (handleUpload hash f base st filename version fileData headerSize
          now).state.blobs (getPath base filename version) = none) := by
  constructor
  · intro hash readback orig
    cases readback with
    | none => simp [verifyFile]
    | some bs =>
      by_cases hl : bs.length = orig.length
      · by_cases hh : hash bs = hash orig
        · simp [verifyFile, hl, hh]
        · simp [verifyFile, hl, hh]
      · simp [verifyFile, hl]
  · intro hash f base st filename version fileData headerSize now h
    by_cases h1 : filename = "" ∨ version = ""
    · rw [handleUpload_invalid hash f base st filename version fileData headerSize now h1]
        at h
      simp at h
    · by_cases h2 : f.lockErr = true
      · rw [handleUpload_lockErr hash f base st filename version fileData headerSize now
          h1 h2] at h
        simp at h
      · rw [Bool.not_eq_true] at h2
        by_cases h3 : st.locks.contains (lockKeyFor filename version) = true
        · rw [handleUpload_conflict hash f base st filename version fileData headerSize now
            h1 h2 h3] at h
          simp at h
        · rw [Bool.not_eq_true] at h3
          by_cases h4 : f.saveErr = true
          · rw [handleUpload_saveErr hash f base st filename version fileData headerSize
              now h1 h2 h3 h4] at h
            simp at h
          · rw [Bool.not_eq_true] at h4
            cases h5 : verifyFile hash
                (readBackOf f (aset st.blobs (getPath base filename version) fileData)
                  (getPath base filename version)) fileData (hash fileData) with
            | some msg =>
              rw [handleUpload_verifyFail hash f base st filename version fileData
                headerSize now msg h1 h2 h3 h4 h5]
              exact alookup_aremove_self _ _
            | none =>
              by_cases h6 : f.metaErr = true
              · rw [handleUpload_metaErr hash f base st filename version fileData
                  headerSize now h1 h2 h3 h4 h5 h6] at h
                simp at h
              · rw [Bool.not_eq_true] at h6
                rw [handleUpload_success hash f base st filename version fileData
                  headerSize now h1 h2 h3 h4 h5 h6] at h
                simp at h

/-- Witness for C5: the failure condition evaluated at a corrupted read-back,
and a concrete verification-failure run (read-back error) after which the
blob is gone. -/
theorem c5_verification_failure_iff_and_cleanup_witness :
    (verifyFile hashLen (some [1, 2]) [1] (hashLen [1]) ≠ none ↔
      ((some [1, 2] : Option (List Nat)) = none ∨
        ∃ bs, (some [1, 2] : Option (List Nat)) = some bs ∧
          (bs.length ≠ [1].length ∨ hashLen bs ≠ hashLen [1]))) ∧
    (handleUpload hashLen ⟨false, false, some none, false⟩ "files" emptyState "w1" "1.0.0"
        [104, 101] 2 7).resp = .err 500 "File verification failed" ∧
    alookup (handleUpload hashLen ⟨false, false, some none, false⟩ "files" emptyState
        "w1" "1.0.0" [104, 101] 2 7).state.blobs (getPath "files" "w1" "1.0.0") = none :=
  ⟨c5_verification_failure_iff_and_cleanup.1 hashLen (some [1, 2]) [1],
   by decide,
   c5_verification_failure_iff_and_cleanup.2 hashLen ⟨false, false, some none, false⟩
     "files" emptyState "w1" "1.0.0" [104, 101] 2 7 (by decide)⟩

/-! ## Claim C9 -/

/-- C9: as long as the subscriber transport accepts sends, the drain loop
delivers exactly the events that pass the allow-list filter — with a
non-empty allow-list, those whose artifact name is a member; with an empty
allow-list, all of them — and skipped events are not delivered. -/
theorem c9_subscriber_receives_exactly_filtered (sendOk : WorkerUpdate → Bool)
    (workerNames : List String) (events : List WorkerUpdate)
    (h : ∀ u, sendOk u = true) :
    drainUpdates sendOk workerNames events =
      (events.filter (fun u => passesFilter workerNames u.workerName), true) := by
  induction events with
  | nil => rfl
  | cons u rest ih =>
    by_cases hn : workerNames = []
    · subst hn
      simp [drainUpdates, passesFilter, h u, ih]
    · have hlen : workerNames.length > 0 := List.length_pos.mpr hn
      by_cases hcon : u.workerName ∈ workerNames
      · have hp : passesFilter workerNames u.workerName = true := by
          simp [passesFilter, hcon]
        simp [drainUpdates, hcon, h u, ih, hp]
      · have hp : passesFilter workerNames u.workerName = false := by
          simp [passesFilter, hn, hcon]
        simp [drainUpdates, hlen, hcon, ih, hp]

/-- Witness for C9: a subscriber with allow-list `["a"]` receives only the
events named `"a"`. -/
theorem c9_subscriber_receives_exactly_filtered_witness :
    drainUpdates (fun _ => true) ["a"]
        [⟨"a", "1", "c", [], 0, "p", 0⟩, ⟨"b", "1", "c", [], 0, "p", 0⟩,
          ⟨"a", "2", "c", [], 0, "p", 0⟩] =
      ([⟨"a", "1", "c", [], 0, "p", 0⟩, ⟨"a", "2", "c", [], 0, "p", 0⟩], true) := by
  rw [c9_subscriber_receives_exactly_filtered (fun _ => true) ["a"] _ (fun _ => rfl)]
  decide

/-! ## Claim C3 -/

theorem broadcastAux_mem_lt (u : WorkerUpdate) (l : List (String × List WorkerUpdate))
    (id : String) (q : List WorkerUpdate) (hmem : (id, q) ∈ l)
    (hlt : q.length < queueBuffer) : (id, q ++ [u]) ∈ (broadcastAux u l).1 := by
  induction l with
  | nil => simp at hmem
  | cons p rest ih =>
    obtain ⟨pid, pq⟩ := p
    rcases List.mem_cons.mp hmem with hmem | hmem
    · obtain ⟨h1, h2⟩ := Prod.mk.injEq .. ▸ hmem
      subst h1
      subst h2
      simp [broadcastAux, hlt]
    · by_cases hp : pq.length < queueBuffer
      · simp only [broadcastAux, hp, if_true, List.mem_cons]
        exact Or.inr (ih hmem)
      · simp only [broadcastAux, hp, if_false, List.mem_cons]
        exact Or.inr (ih hmem)

theorem broadcastAux_mem_full (u : WorkerUpdate) (l : List (String × List WorkerUpdate))
    (id : String) (q : List WorkerUpdate) (hmem : (id, q) ∈ l)
    (hge : ¬ q.length < queueBuffer) :
    (id, q) ∈ (broadcastAux u l).1 ∧ id ∈ (broadcastAux u l).2 := by
  induction l with
  | nil => simp at hmem
  | cons p rest ih =>
    obtain ⟨pid, pq⟩ := p
    rcases List.mem_cons.mp hmem with hmem | hmem
    · obtain ⟨h1, h2⟩ := Prod.mk.injEq .. ▸ hmem
      subst h1
      subst h2
      simp [broadcastAux, hge]
    · by_cases hp : pq.length < queueBuffer
      · simp only [broadcastAux, hp, if_true, List.mem_cons]
        exact ⟨Or.inr (ih hmem).1, (ih hmem).2⟩
      · simp only [broadcastAux, hp, if_false, List.mem_cons]
        exact ⟨Or.inr (ih hmem).1, Or.inr (ih hmem).2⟩

theorem broadcastAux_dropped_iff (u : WorkerUpdate) (l : List (String × List WorkerUpdate)) :
    (broadcastAux u l).2 ≠ [] ↔
      ∃ id q, (id, q) ∈ l ∧ ¬ q.length < queueBuffer := by
  induction l with
  | nil => simp [broadcastAux]
  | cons p rest ih =>
    obtain ⟨pid, pq⟩ := p
    by_cases hp : pq.length < queueBuffer
    · simp only [broadcastAux, hp, if_true]
      rw [ih]
      constructor
      · rintro ⟨id, q, hmem, hfull⟩
        exact ⟨id, q, List.mem_cons_of_mem _ hmem, hfull⟩
      · rintro ⟨id, q, hmem, hfull⟩
        rcases List.mem_cons.mp hmem with heq | hmem
        · obtain ⟨h1, h2⟩ := Prod.mk.injEq .. ▸ heq
          subst h2
          exact absurd hp hfull
        · exact ⟨id, q, hmem, hfull⟩
    · simp only [broadcastAux, hp, if_false]
      constructor
      · intro _
        exact ⟨pid, pq, List.mem_cons_self _ _, hp⟩
      · intro _
        simp

/-- C3 (amended): for every `Broadcast` call, each registered subscriber with
room in its queue has the event enqueued (non-blocking) and each subscriber
with a full queue keeps its queue unchanged with its ID listed in the
aggregate drop report; `Broadcast` returns success (`nil` error) when the
registry is empty; but a drop is reported as a *non-nil error* of the
`Broadcast` call — the call errs exactly when some registered subscriber's
queue is full. -/
theorem c3_broadcast_enqueue_or_drop :
    (∀ (sm : StreamManager) (u : WorkerUpdate), sm.streams = [] →
      broadcast sm u = (sm, none)) ∧
    (∀ (sm : StreamManager) (u : WorkerUpdate) (id : String) (q : List WorkerUpdate),
      (id, q) ∈ sm.streams →
        (q.length < queueBuffer → (id, q ++ [u]) ∈ (broadcast sm u).1.streams) ∧
        (¬ q.length < queueBuffer →
          (id, q) ∈ (broadcast sm u).1.streams ∧
          ∃ ids, (broadcast sm u).2 = some ids ∧ id ∈ ids)) ∧
    (∀ (sm : StreamManager) (u : WorkerUpdate),
      (broadcast sm u).2 ≠ none ↔
        ∃ id q, (id, q) ∈ sm.streams ∧ ¬ q.length < queueBuffer) := by
  refine ⟨?_, ?_, ?_⟩
  · intro sm u hempty
    simp [broadcast, hempty]
  · intro sm u id q hmem
    have hne : sm.streams.isEmpty = false := by
      cases hs : sm.streams with
      | nil => rw [hs] at hmem; simp at hmem
      | cons a l => simp
    constructor
    · intro hlt
      simp only [broadcast, hne, Bool.false_eq_true, if_false]
      exact broadcastAux_mem_lt u sm.streams id q hmem hlt
    · intro hge
      have hfull := broadcastAux_mem_full u sm.streams id q hmem hge
      have hdrop : (broadcastAux u sm.streams).2 ≠ [] :=
        List.ne_nil_of_mem hfull.2
      simp only [broadcast, hne, Bool.false_eq_true, if_false]
      refine ⟨hfull.1, (broadcastAux u sm.streams).2, ?_, hfull.2⟩
      simp [List.isEmpty_iff, hdrop]
  · intro sm u
    cases hs : sm.streams with
    | nil =>
      simp only [broadcast, hs, List.isEmpty_nil, if_true]
      simp
    | cons a l =>
      have hne : sm.streams.isEmpty = false := by simp [hs]
      simp only [broadcast, hne, Bool.false_eq_true, if_false]
      rw [← hs, ← broadcastAux_dropped_iff u sm.streams]
      by_cases hd : (broadcastAux u sm.streams).2 = []
      · simp [hd, List.isEmpty_iff]
      · simp [List.isEmpty_iff, hd]

/-- Witness for C3's amended theorem: one registered subscriber with an empty
queue gets the event enqueued; the empty registry is a success. -/
theorem c3_broadcast_enqueue_or_drop_witness :
    ("c1", ([] : List WorkerUpdate) ++ [evA]) ∈
      (broadcast (register emptySM "c1") evA).1.streams ∧
    broadcast emptySM evA = (emptySM, none) :=
  ⟨((c3_broadcast_enqueue_or_drop.2.1 (register emptySM "c1") evA "c1" []
      (by decide)).1 (by decide)),
   c3_broadcast_enqueue_or_drop.1 emptySM evA rfl⟩

set_option maxRecDepth 4000 in
/-- C3 counterexample to the claim as stated: a subscriber whose queue is
full (after `queueBuffer` broadcasts) makes the next `Broadcast` call return
a non-nil error (`some ["c1"]`, the aggregate listing the dropped consumer),
and the HTTP broadcast endpoint maps it to a 500 — a drop by itself *is* an
error condition of the Broadcast call. -/
theorem c3_drop_is_error_counterexample :
    (broadcast smFull evA).2 = some ["c1"] ∧
    (httpBroadcastStatus smFull evA).1 = 500 := by decide

/-! ## Claim C8 -/

theorem zmembers_store_self (ms : MetaState) (m : FileMetadata) :
    zmembers (storeFileMetadata ms m) m.filename =
      zadd (zmembers ms m.filename) m.version m.uploadedAt := by
  simp [zmembers, storeFileMetadata, alookup_aset_self]

theorem zmembers_store_ne (ms : MetaState) (m : FileMetadata) (n : String)
    (h : n ≠ m.filename) : zmembers (storeFileMetadata ms m) n = zmembers ms n := by
  simp [zmembers, storeFileMetadata, alookup_aset_ne _ _ _ _ h]

theorem metaInv_store (ms : MetaState) (m : FileMetadata) (h : metaInv ms) :
    metaInv (storeFileMetadata ms m) := by
  intro n v hlat
  by_cases hn : n = m.filename
  · subst hn
    rw [show (storeFileMetadata ms m).latest = aset ms.latest m.filename m.version from rfl,
      alookup_aset_self ms.latest m.filename m.version] at hlat
    obtain rfl : m.version = v := Option.some.injEq .. ▸ hlat
    rw [zmembers_store_self]
    exact self_mem_fst_aset (zmembers ms m.filename) m.version m.uploadedAt
  · rw [show (storeFileMetadata ms m).latest = aset ms.latest m.filename m.version from rfl,
      alookup_aset_ne ms.latest m.filename n m.version hn] at hlat
    rw [zmembers_store_ne ms m n hn]
    exact h n v hlat

theorem zmembers_store_mono (ms : MetaState) (m : FileMetadata) (n v : String)
    (h : v ∈ (zmembers ms n).map Prod.fst) :
    v ∈ (zmembers (storeFileMetadata ms m) n).map Prod.fst := by
  by_cases hn : n = m.filename
  · subst hn
    rw [zmembers_store_self]
    exact mem_fst_aset (zmembers ms m.filename) m.version v m.uploadedAt h
  · rw [zmembers_store_ne ms m n hn]
    exact h

theorem metaInv_commitSeq (l : List (Bool × FileMetadata)) :
    ∀ ms, metaInv ms → metaInv (commitSeq ms l) := by
  induction l with
  | nil => intro ms h; exact h
  | cons p rest ih =>
    intro ms h
    obtain ⟨ok, m⟩ := p
    cases ok
    · simpa [commitSeq] using ih ms h
    · simpa [commitSeq] using ih (storeFileMetadata ms m) (metaInv_store ms m h)

theorem zmembers_commitSeq_mono (l : List (Bool × FileMetadata)) :
    ∀ (ms : MetaState) (n v : String), v ∈ (zmembers ms n).map Prod.fst →
      v ∈ (zmembers (commitSeq ms l) n).map Prod.fst := by
  induction l with
  | nil => intro ms n v h; exact h
  | cons p rest ih =>
    intro ms n v h
    obtain ⟨ok, m⟩ := p
    cases ok
    · simpa [commitSeq] using ih ms n v h
    · simpa [commitSeq] using
        ih (storeFileMetadata ms m) n v (zmembers_store_mono ms m n v h)

theorem metaInv_empty : metaInv emptyMeta := by
  intro n v hlat
  simp [emptyMeta, alookup] at hlat

/-- C8: after any sequence of metadata-commit attempts (each transaction
either applied atomically or failed with no effect) starting from the empty
store, every set latest pointer names a version present in that name's
version index; and no commit ever removes a version from any index (the
index is append-only). -/
theorem c8_latest_in_index_and_append_only :
    (∀ l : List (Bool × FileMetadata), metaInv (commitSeq emptyMeta l)) ∧
    (∀ (ms : MetaState) (l : List (Bool × FileMetadata)) (n v : String),
      v ∈ (zmembers ms n).map Prod.fst →
      v ∈ (zmembers (commitSeq ms l) n).map Prod.fst) :=
  ⟨fun l => metaInv_commitSeq l emptyMeta metaInv_empty,
   fun ms l n v h => zmembers_commitSeq_mono l ms n v h⟩

/-- Witness for C8: a concrete commit sequence (success, failed transaction,
success); the latest pointer names a version in the index, and a previously
present version survives further commits. -/
theorem c8_latest_in_index_and_append_only_witness :
    alookup (commitSeq emptyMeta
        [(true, ⟨"a", "1", "c", "p", 5, 1⟩), (false, ⟨"a", "9", "c", "p", 6, 1⟩),
          (true, ⟨"a", "2", "c", "p", 7, 1⟩)]).latest "a" = some "2" ∧
    "2" ∈ (zmembers (commitSeq emptyMeta
        [(true, ⟨"a", "1", "c", "p", 5, 1⟩), (false, ⟨"a", "9", "c", "p", 6, 1⟩),
          (true, ⟨"a", "2", "c", "p", 7, 1⟩)]) "a").map Prod.fst ∧
    "1" ∈ (zmembers (commitSeq msW10
        [(true, ⟨"a", "2", "c", "p", 7, 1⟩)]) "a").map Prod.fst :=
  ⟨by decide,
   c8_latest_in_index_and_append_only.1
     [(true, ⟨"a", "1", "c", "p", 5, 1⟩), (false, ⟨"a", "9", "c", "p", 6, 1⟩),
       (true, ⟨"a", "2", "c", "p", 7, 1⟩)] "a" "2" (by decide),
   c8_latest_in_index_and_append_only.2 msW10
     [(true, ⟨"a", "2", "c", "p", 7, 1⟩)] "a" "1" (by decide)⟩

/-! ## Claim C10 -/

theorem zmaxAux_mem (l : List (String × Int)) :
    ∀ b : String × Int, zmaxAux b l ∈ b :: l := by
  induction l with
  | nil => intro b; simp [zmaxAux]
  | cons p rest ih =>
    intro b
    simp only [zmaxAux]
    by_cases hc : b.2 < p.2 ∨ (b.2 = p.2 ∧ b.1 < p.1)
    · simp only [hc, if_true]
      rcases List.mem_cons.mp (ih p) with h | h
      · rw [h]; exact List.mem_cons_of_mem _ (List.mem_cons_self _ _)
      · exact List.mem_cons_of_mem _ (List.mem_cons_of_mem _ h)
    · simp only [hc, if_false]
      rcases List.mem_cons.mp (ih b) with h | h
      · rw [h]; exact List.mem_cons_self _ _
      · exact List.mem_cons_of_mem _ (List.mem_cons_of_mem _ h)

theorem zmaxAux_ge (l : List (String × Int)) :
    ∀ (b p : String × Int), p ∈ b :: l → p.2 ≤ (zmaxAux b l).2 := by
  induction l with
  | nil =>
    intro b p hp
    simp only [List.not_mem_nil, or_false, List.mem_singleton] at hp
    rw [hp]
    exact le_refl _
  | cons q rest ih =>
    intro b p hp
    simp only [zmaxAux]
    by_cases hc : b.2 < q.2 ∨ (b.2 = q.2 ∧ b.1 < q.1)
    · simp only [hc, if_true]
      have hbq : b.2 ≤ q.2 := by
        rcases hc with h | h
        · exact le_of_lt h
        · exact le_of_eq h.1
      rcases List.mem_cons.mp hp with h | h
      · rw [h]
        exact le_trans hbq (ih q q (List.mem_cons_self _ _))
      · exact ih q p h
    · simp only [hc, if_false]
      rcases List.mem_cons.mp hp with h | h
      · rw [h]
        exact ih b b (List.mem_cons_self _ _)
      · rcases List.mem_cons.mp h with h' | h'
        · have hqb : q.2 ≤ b.2 := le_of_not_lt (fun hlt => hc (Or.inl hlt))
          rw [h']
          exact le_trans hqb (ih b b (List.mem_cons_self _ _))
        · exact ih b p (List.mem_cons_of_mem _ h')

theorem zrevTop_spec (zs : List (String × Int)) (v : String) (h : zrevTop zs = some v) :
    ∃ s, (v, s) ∈ zs ∧ ∀ p ∈ zs, p.2 ≤ s := by
  cases zs with
  | nil => simp [zrevTop] at h
  | cons p rest =>
    simp only [zrevTop, Option.some.injEq] at h
    refine ⟨(zmaxAux p rest).2, ?_, ?_⟩
    · have hm := zmaxAux_mem rest p
      rw [← h]
      simpa using hm
    · intro q hq
      exact zmaxAux_ge rest p q hq

theorem zrevTop_eq_none (zs : List (String × Int)) : zrevTop zs = none ↔ zs = [] := by
  cases zs with
  | nil => simp [zrevTop]
  | cons p rest => simp [zrevTop]

/-- C10 (amended): when the latest pointer key is absent and the version
index is readable and non-empty, reading the latest version does not report
absence — it returns a member of the index carrying the maximal timestamp
score; and an error is returned exactly when the pointer read itself fails,
or the pointer is absent and the index is unreadable or empty. -/
theorem c10_latest_pointer_fallback :
    (∀ (ms : MetaState) (zE : Bool) (n : String),
      alookup ms.latest n = none → zE = false → zmembers ms n ≠ [] →
      ∃ v s, getLatestVersion ms false zE n = .ok v ∧ (v, s) ∈ zmembers ms n ∧
        ∀ p ∈ zmembers ms n, p.2 ≤ s) ∧
    (∀ (ms : MetaState) (gE zE : Bool) (n : String),
      (∃ msg, getLatestVersion ms gE zE n = .error msg) ↔
        (gE = true ∨ (alookup ms.latest n = none ∧ (zE = true ∨ zmembers ms n = [])))) := by
  constructor
  · intro ms zE n hlat hzE hne
    subst hzE
    cases hz : zrevTop (zmembers ms n) with
    | none => exact absurd ((zrevTop_eq_none (zmembers ms n)).mp hz) hne
    | some v =>
      obtain ⟨s, hmem, hmax⟩ := zrevTop_spec (zmembers ms n) v hz
      refine ⟨v, s, ?_, hmem, hmax⟩
      simp [getLatestVersion, hlat, hz]
  · intro ms gE zE n
    cases gE with
    | true =>
      constructor
      · intro _; exact Or.inl rfl
      · intro _; exact ⟨"failed to get latest version", rfl⟩
    | false =>
      cases hlat : alookup ms.latest n with
      | some v =>
        constructor
        · rintro ⟨msg, hmsg⟩
          rw [show getLatestVersion ms false zE n = .ok v by
            simp [getLatestVersion, hlat]] at hmsg
          exact absurd hmsg (by simp)
        · rintro (h | ⟨h, _⟩)
          · exact absurd h (by simp)
          · exact absurd h (by simp)
      | none =>
        cases zE with
        | true =>
          constructor
          · intro _; exact Or.inr ⟨rfl, Or.inl rfl⟩
          · intro _
            exact ⟨"no versions found for file: " ++ n, by simp [getLatestVersion, hlat]⟩
        | false =>
          cases hz : zrevTop (zmembers ms n) with
          | some v =>
            have hne : zmembers ms n ≠ [] := by
              intro he
              rw [he] at hz
              simp [zrevTop] at hz
            constructor
            · rintro ⟨msg, hmsg⟩
              rw [show getLatestVersion ms false false n = .ok v by
                simp [getLatestVersion, hlat, hz]] at hmsg
              exact absurd hmsg (by simp)
            · rintro (h | ⟨_, h | h⟩)
              · exact absurd h (by simp)
              · exact absurd h (by simp)
              · exact absurd h hne
          | none =>
            have he : zmembers ms n = [] := (zrevTop_eq_none (zmembers ms n)).mp hz
            constructor
            · intro _; exact Or.inr ⟨rfl, Or.inr he⟩
            · intro _
              exact ⟨"no versions found for file: " ++ n,
                by simp [getLatestVersion, hlat, hz]⟩

/-- Witness for C10's amended theorem: with the pointer absent and a
non-empty index, the fallback returns the highest-scored member; the error
characterization evaluated at a concrete store. -/
theorem c10_latest_pointer_fallback_witness :
    (∃ v s, getLatestVersion ⟨[], [("a", [("1", 5), ("2", 8)])], []⟩ false false "a" =
        .ok v ∧ (v, s) ∈ zmembers ⟨[], [("a", [("1", 5), ("2", 8)])], []⟩ "a" ∧
      ∀ p ∈ zmembers ⟨[], [("a", [("1", 5), ("2", 8)])], []⟩ "a", p.2 ≤ s) ∧
    ((∃ msg, getLatestVersion msW10 false false "a" = .error msg) ↔
      (false = true ∨ (alookup msW10.latest "a" = none ∧
        (false = true ∨ zmembers msW10 "a" = [])))) :=
  ⟨c10_latest_pointer_fallback.1 ⟨[], [("a", [("1", 5), ("2", 8)])], []⟩ false "a"
     (by decide) rfl (by decide),
   c10_latest_pointer_fallback.2 msW10 false false "a"⟩

/-- C10 counterexample to the claim as stated: when the pointer *read*
errors (a store failure that is not key absence), `GetLatestVersion` returns
an error even though the pointer key is present and the version index is
non-empty and readable — so "an error is returned only when the pointer is
absent and the index is empty or unreadable" fails. -/
theorem c10_error_despite_pointer_present_counterexample :
    getLatestVersion msW10 true false "a" = .error "failed to get latest version" ∧
    alookup msW10.latest "a" = some "1" ∧
    zmembers msW10 "a" ≠ [] :=
  ⟨rfl, rfl, by decide⟩

end ControlPlane
